import Mathlib

/-!
# amazon-lambda-kinesis-cloudsearch: the Kinesis to CloudSearch handler

A shallow embedding of `main.go` and of the Go library functions it calls
(`path/filepath`, `strings`, `strconv`), followed by the properties of the
record-to-document transformation and of the batch handler.

Modelling conventions.

* A Go `string` is modelled as a list of characters.  The strings handled here
  come out of `json.Unmarshal`, which always yields valid UTF-8, and every
  byte the code compares against (`'.'`, `'/'`, `'\\'`, `'-'`, the digits) is
  ASCII, so a byte-wise scan and a character-wise scan stop at the same
  places.
* The program is built for Linux (the only target of the Lambda Go runtime),
  where `os.IsPathSeparator` accepts `'/'` only and `filepath.VolumeName` is
  always empty.
* The platform `int` is 64 bits wide; it is modelled as an `Int` in the range
  `-2^63 ≤ i < 2^63`, conversions to `uint64` being written with `% 2^64`.
* The JSON codec, the process environment and the CloudSearch client are
  external collaborators, passed to the handler as a record of functions; the
  upload calls made during a run are returned as a trace.  Diagnostic
  printing is not modelled.
-/

namespace KinesisCloudSearch

/-- A Go string, see the conventions above. -/
abbrev GoString := List Char

/-! ## Go library functions used by `main.go` -/

/-- Go `os.IsPathSeparator` on Linux: `PathSeparator == c`. -/
def IsPathSeparator (c : Char) : Bool := c == '/'

/-- The loop of `filepath.Ext`:
`for i := len(path) - 1; i >= 0 && !os.IsPathSeparator(path[i]); i--`.
The first argument is `path[0..i]` reversed (its head is `path[i]`), the
second is `path[i+1..]`. -/
def extLoop : List Char → List Char → GoString
  | [], _ => []
  | c :: before, after =>
    if IsPathSeparator c then []
    else if c = '.' then c :: after
    else extLoop before (c :: after)

/-- Go `filepath.Ext`: the suffix beginning at the final dot in the final
slash-separated element of `path`; empty if there is no dot. -/
def filepath.Ext (path : GoString) : GoString := extLoop path.reverse []

/-- The loop of `filepath.Split`:
`for i >= len(vol) && !os.IsPathSeparator(path[i]) { i-- }` followed by
`return path[:i+1], path[i+1:]`, with `vol` empty.  The first argument is
`path[0..i]` reversed, the second is `path[i+1..]`. -/
def splitLoop : List Char → List Char → GoString × GoString
  | [], after => ([], after)
  | c :: before, after =>
    if IsPathSeparator c then ((c :: before).reverse, after)
    else splitLoop before (c :: after)

/-- Go `filepath.Split`: splits `path` immediately following the final
separator. -/
def filepath.Split (path : GoString) : GoString × GoString := splitLoop path.reverse []

/-- Go `strings.Replace(s, old, new, -1)` for a one-byte `old`: every
occurrence of `old` is replaced by `new`. -/
def strings.Replace : GoString → Char → GoString → GoString
  | [], _, _ => []
  | c :: s, old, new =>
    if c = old then new ++ strings.Replace s old new
    else c :: strings.Replace s old new

/-- The decimal digit of a number below ten (`digits[u]` in `strconv`). -/
def digitByte (d : Nat) : Char := Char.ofNat (48 + d)

/-- The digit loop of `strconv.formatBits` in base ten, writing from the end
of the buffer `a`:
`for u >= b { i--; q := u / b; a[i] = digits[u - q*b]; u = q }; i--; a[i] = digits[u]`.
The first argument counts the free bytes of the buffer, the last is the part
already written. -/
def formatLoop : Nat → Nat → List Char → List Char
  | 0, _, a => a
  | room + 1, u, a =>
    if u ≥ 10 then formatLoop room (u / 10) (digitByte (u - u / 10 * 10) :: a)
    else digitByte u :: a

/-- Go `strconv.formatBits` in base ten over its buffer `a [64 + 1]byte`: `u`
is the value as a `uint64`, negated (as a `uint64`) when `neg` is set.  (The
library writes two digits per step from a table when the base is ten, and
answers small values from the same table; the bytes are those of the general
loop modelled here.) -/
def formatBits (u : Nat) (neg : Bool) : GoString :=
  let u := if neg then (2 ^ 64 - u) % 2 ^ 64 else u
  let a := formatLoop 65 u []
  if neg then '-' :: a else a

/-- Go `strconv.FormatInt(i, 10)`: `formatBits(nil, uint64(i), 10, i < 0, false)`. -/
def strconv.FormatInt (i : Int) : GoString :=
  formatBits (i % 2 ^ 64).toNat (decide (i < 0))

/-- Go `strconv.Itoa`: `FormatInt(int64(i), 10)`. -/
def strconv.Itoa (i : Int) : GoString := strconv.FormatInt i

/-! ## Data model of `main.go` -/

/-- The decoded payload of a Kinesis record. -/
structure KinesisEventData where
  FilePath : GoString
  Id : Int
  deriving DecidableEq, Repr

/-- The CloudSearch field set (`dir`, `name`, `ext`). -/
structure CloudSearchDocument where
  Directory : GoString
  FileName : GoString
  FileExtension : GoString
  deriving DecidableEq, Repr

/-- One item of the upload batch (`type`, `id`, `fields`); the Go field `Type`
is written `Type_`, a keyword being no field name. -/
structure AmazonDocumentUploadRequest where
  Type_ : GoString
  Id : GoString
  Fields : CloudSearchDocument
  deriving DecidableEq, Repr

/-- The result object of an invocation. -/
structure Response where
  Ok : Bool
  deriving DecidableEq, Repr

/-! ## The transformation -/

/-- `CreateAmazonDocumentUploadRequest` of `main.go`. -/
def CreateAmazonDocumentUploadRequest (id : Int) (document : CloudSearchDocument) :
    AmazonDocumentUploadRequest :=
  { Type_ := "add".toList
    Id := strconv.Itoa id
    Fields := document }

/-- `ConvertToCloudSearchDocument` of `main.go`. -/
def ConvertToCloudSearchDocument (data : KinesisEventData) : CloudSearchDocument :=
  let extWithDot := filepath.Ext data.FilePath
  let ext : GoString := if extWithDot ≠ [] then extWithDot.drop 1 else []
  let split := filepath.Split (strings.Replace data.FilePath '\\' ['/'])
  { FileExtension := ext
    Directory := split.1
    FileName := split.2 }

/-- `failed` of `main.go`. -/
def failed : Response := { Ok := false }

/-- `success` of `main.go`. -/
def success : Response := { Ok := true }

/-! ## The handler and its collaborators -/

/-- A Go `error` value. -/
abbrev GoError := String

/-- The `events.KinesisRecord` of a record: its raw payload. -/
structure KinesisRecord where
  Data : List UInt8
  deriving DecidableEq, Repr

/-- One `events.KinesisEventRecord` of the triggering batch. -/
structure KinesisEventRecord where
  EventName : GoString
  Kinesis : KinesisRecord
  deriving DecidableEq, Repr

/-- The `events.KinesisEvent` handed to the handler. -/
structure KinesisEvent where
  Records : List KinesisEventRecord
  deriving DecidableEq, Repr

/-- The `aws.Config` the CloudSearch client is built with. -/
structure Config where
  Region : GoString
  Endpoint : GoString
  MaxRetries : Nat
  deriving DecidableEq, Repr

/-- The `cloudsearchdomain.UploadDocumentsInput` of an upload. -/
structure UploadDocumentsInput where
  ContentType : GoString
  Documents : List UInt8
  deriving DecidableEq, Repr

/-- One outbound call: `req.Send()` on the request made from `params` by the
client configured with `config`. -/
structure UploadCall where
  config : Config
  params : UploadDocumentsInput
  deriving DecidableEq, Repr

/-- The collaborators of the handler: `json.Unmarshal` into a
`KinesisEventData`, `json.Marshal` of the batch, `os.Getenv`, and the sending
of an upload request (`none` is Go's `nil` error). -/
structure Collaborators where
  Unmarshal : List UInt8 → Except GoError KinesisEventData
  Marshal : List AmazonDocumentUploadRequest → Except GoError (List UInt8)
  Getenv : GoString → GoString
  Send : UploadCall → Option GoError

/-- What an invocation yields: the returned pair `(Response, error)` and the
upload calls made, in order. -/
structure Outcome where
  response : Response
  err : Option GoError
  calls : List UploadCall
  deriving DecidableEq, Repr

/-- The item the loop body of `Handler` builds from a decoded event
(lines 57 and 58). -/
def requestOf (eventData : KinesisEventData) : AmazonDocumentUploadRequest :=
  CreateAmazonDocumentUploadRequest eventData.Id (ConvertToCloudSearchDocument eventData)

/-- The loop of `Handler` over `kinesisEvent.Records`: the second argument is
`amasonDocumentsBatch` so far; a decoding error leaves the function. -/
def prepare (w : Collaborators) :
    List KinesisEventRecord → List AmazonDocumentUploadRequest →
      Except GoError (List AmazonDocumentUploadRequest)
  | [], amasonDocumentsBatch => .ok amasonDocumentsBatch
  | record :: rest, amasonDocumentsBatch =>
    match w.Unmarshal record.Kinesis.Data with
    | .error err => .error err
    | .ok eventData => prepare w rest (amasonDocumentsBatch ++ [requestOf eventData])

/-- `Handler` of `main.go`. -/
def Handler (w : Collaborators) (kinesisEvent : KinesisEvent) : Outcome :=
  match prepare w kinesisEvent.Records [] with
  | .error err => { response := failed, err := some err, calls := [] }
  | .ok amasonDocumentsBatch =>
    if amasonDocumentsBatch.length > 0 then
      let svc : Config :=
        { Region := w.Getenv "SearchRegion".toList
          Endpoint := w.Getenv "SearchEndpoint".toList
          MaxRetries := 6 }
      match w.Marshal amasonDocumentsBatch with
      | .error err => { response := failed, err := some err, calls := [] }
      | .ok batch =>
        let params : UploadDocumentsInput :=
          { ContentType := "application/json".toList
            Documents := batch }
        let req : UploadCall := { config := svc, params := params }
        match w.Send req with
        | some err => { response := failed, err := some err, calls := [req] }
        | none => { response := success, err := none, calls := [req] }
    else { response := success, err := none, calls := [] }

/-! ## Reference notions used in the statements -/

/-- The path with every back-slash replaced by a forward slash. -/
def normalise (p : GoString) : GoString := p.map fun c => if c = '\\' then '/' else c

/-- The text after the last `'.'` of a path segment, empty when the segment
has no `'.'`. -/
def afterLastDot (segment : GoString) : GoString :=
  if '.' ∈ segment then (segment.reverse.takeWhile fun c => c ≠ '.').reverse else []

/-- Go `strconv.Atoi` on a 64-bit platform: an optional sign
(`if s[0] == '-' || s[0] == '+' { s = s[1:] }`), then at least one character,
all of them decimal digits, accumulated as `n = n*10 + int(ch - '0')`, the
signed value lying in the range of `int`; `none` stands for a syntax or range
error. -/
def strconv.Atoi (s0 : GoString) : Option Int :=
  let s := if s0.head? = some '-' ∨ s0.head? = some '+' then s0.drop 1 else s0
  if s = [] then none
  else if s.all Char.isDigit then
    let n : Nat := s.foldl (fun n ch => n * 10 + (ch.toNat - 48)) 0
    let v : Int := if s0.head? = some '-' then -(n : Int) else (n : Int)
    if -(2 ^ 63) ≤ v ∧ v < 2 ^ 63 then some v else none
  else none

/-! ## Concrete collaborators used to instantiate the statements -/

/-- A decoder that accepts two payloads and rejects every other one. -/
def sampleUnmarshal (data : List UInt8) : Except GoError KinesisEventData :=
  if data = [1] then .ok { FilePath := "a\\b\\report.pdf".toList, Id := 42 }
  else if data = [2] then .ok { FilePath := "noext".toList, Id := 7 }
  else .error "invalid character"

/-- Collaborators whose encoder returns the batch length as the body and whose
upload is refused when the body is `[1]`. -/
def sampleCollaborators : Collaborators :=
  { Unmarshal := sampleUnmarshal
    Marshal := fun batch => .ok [UInt8.ofNat batch.length]
    Getenv := fun name => name
    Send := fun req => if req.params.Documents = [1] then some "upload refused" else none }

/-- A record with the given payload. -/
def sampleRecord (data : List UInt8) : KinesisEventRecord :=
  { EventName := "aws:kinesis:record".toList, Kinesis := { Data := data } }

/-! ## Lemmas on the library functions -/

theorem splitLoop_append (before after : List Char) :
    (splitLoop before after).1 ++ (splitLoop before after).2 = before.reverse ++ after := by
  induction before generalizing after with
  | nil => simp [splitLoop]
  | cons c before ih =>
    unfold splitLoop
    split
    · rfl
    · rw [ih]; simp

theorem splitLoop_snd_no_sep (before after : List Char) (h : '/' ∉ after) :
    '/' ∉ (splitLoop before after).2 := by
  induction before generalizing after with
  | nil => simpa [splitLoop] using h
  | cons c before ih =>
    unfold splitLoop
    split
    · exact h
    · rename_i hc
      apply ih
      intro hmem
      rcases List.mem_cons.1 hmem with h1 | h1
      · exact hc (by simp [IsPathSeparator, ← h1])
      · exact h h1

theorem splitLoop_fst_shape (before after : List Char) :
    (splitLoop before after).1 = [] ∨ (splitLoop before after).1.getLast? = some '/' := by
  induction before generalizing after with
  | nil => simp [splitLoop]
  | cons c before ih =>
    unfold splitLoop
    split
    · rename_i hc
      right
      have : c = '/' := by simpa [IsPathSeparator] using hc
      simp [this]
    · exact ih _

theorem replace_eq_normalise (p : GoString) : strings.Replace p '\\' ['/'] = normalise p := by
  induction p with
  | nil => rfl
  | cons c p ih =>
    unfold strings.Replace
    by_cases hc : c = '\\' <;> simp [hc, ih, normalise]

theorem normalise_no_backslash (p : GoString) : '\\' ∉ normalise p := by
  intro h
  rcases List.mem_map.1 h with ⟨c, -, hc⟩
  by_cases h1 : c = '\\'
  · rw [if_pos h1] at hc; exact absurd hc (by decide)
  · rw [if_neg h1] at hc; exact h1 hc

theorem normalise_idem (p : GoString) : normalise (normalise p) = normalise p := by
  unfold normalise
  rw [List.map_map]
  apply List.map_congr_left
  intro c _
  by_cases h1 : c = '\\'
  · simp [h1]
  · simp [h1]

theorem prepare_all_ok (w : Collaborators) (records : List KinesisEventRecord)
    (acc : List AmazonDocumentUploadRequest)
    (h : ∀ r ∈ records, ∃ ev, w.Unmarshal r.Kinesis.Data = .ok ev) :
    ∃ items, prepare w records acc = .ok (acc ++ items) ∧
      items.length = records.length ∧
      ∀ i (hi : i < records.length), ∃ ev,
        w.Unmarshal (records.get ⟨i, hi⟩).Kinesis.Data = .ok ev ∧
        items[i]? = some (requestOf ev) := by
  induction records generalizing acc with
  | nil => exact ⟨[], by simp [prepare], rfl, fun i hi => absurd hi (Nat.not_lt_zero i)⟩
  | cons r rest ih =>
    obtain ⟨ev, hev⟩ := h r (List.mem_cons_self _ _)
    obtain ⟨items, h1, h2, h3⟩ :=
      ih (acc ++ [requestOf ev]) (fun r hr => h r (List.mem_cons_of_mem _ hr))
    refine ⟨requestOf ev :: items, ?_, by simp [h2], ?_⟩
    · simp only [prepare, hev]
      rw [h1]; simp
    · intro i hi
      cases i with
      | zero => exact ⟨ev, hev, by simp⟩
      | succ j =>
        obtain ⟨ev2, h4, h5⟩ := h3 j (Nat.lt_of_succ_lt_succ hi)
        exact ⟨ev2, h4, by simpa using h5⟩

theorem prepare_first_error (w : Collaborators) (pre post : List KinesisEventRecord)
    (bad : KinesisEventRecord) (e : GoError) (acc : List AmazonDocumentUploadRequest)
    (hpre : ∀ r ∈ pre, ∃ ev, w.Unmarshal r.Kinesis.Data = .ok ev)
    (hbad : w.Unmarshal bad.Kinesis.Data = .error e) :
    prepare w (pre ++ bad :: post) acc = .error e := by
  induction pre generalizing acc with
  | nil => simp [prepare, hbad]
  | cons r rest ih =>
    obtain ⟨ev, hev⟩ := hpre r (List.mem_cons_self _ _)
    simp only [List.cons_append, prepare, hev]
    exact ih _ (fun r hr => hpre r (List.mem_cons_of_mem _ hr))

theorem digitByte_spec (d : Nat) (h : d < 10) :
    digitByte d = Nat.digitChar d ∧ (digitByte d).isDigit = true ∧
      (digitByte d).toNat - 48 = d ∧ digitByte d ≠ '-' ∧ digitByte d ≠ '+' := by
  interval_cases d <;> decide

theorem formatLoop_eq_toDigitsCore (room : Nat) :
    ∀ (fuel u : Nat) (a : List Char), u < 10 ^ (room + 1) → u < fuel →
      formatLoop (room + 1) u a = Nat.toDigitsCore 10 fuel u a := by
  induction room with
  | zero =>
    intro fuel u a hu hf
    obtain ⟨f, rfl⟩ : ∃ f, fuel = f + 1 := ⟨fuel - 1, by omega⟩
    have h10 : u < 10 := by simpa using hu
    have h1 : ¬ u ≥ 10 := by omega
    have h2 : u / 10 = 0 := by omega
    have h3 : u % 10 = u := by omega
    simp only [formatLoop, h1, if_false, Nat.toDigitsCore, h2, if_true, h3]
    rw [(digitByte_spec u h10).1]
  | succ room ih =>
    intro fuel u a hu hf
    obtain ⟨f, rfl⟩ : ∃ f, fuel = f + 1 := ⟨fuel - 1, by omega⟩
    by_cases h1 : u ≥ 10
    · have h2 : ¬ u / 10 = 0 := by omega
      have h3 : u - u / 10 * 10 = u % 10 := by omega
      have h4 : u / 10 < 10 ^ (room + 1) := by
        rw [Nat.div_lt_iff_lt_mul (by decide)]
        calc u < 10 ^ (room + 1 + 1) := hu
          _ = 10 ^ (room + 1) * 10 := by rw [pow_succ]
      have h5 : u / 10 < f := by omega
      rw [formatLoop, if_pos h1, Nat.toDigitsCore]
      simp only [h2, if_false, h3]
      rw [ih f (u / 10) _ h4 h5, (digitByte_spec (u % 10) (Nat.mod_lt _ (by decide))).1]
    · have h10 : u < 10 := by omega
      have h2 : u / 10 = 0 := by omega
      have h3 : u % 10 = u := by omega
      simp only [formatLoop, h1, if_false, Nat.toDigitsCore, h2, if_true, h3]
      rw [(digitByte_spec u h10).1]

theorem formatLoop_digits (room : Nat) :
    ∀ (u : Nat) (a : List Char), u < 10 ^ (room + 1) →
      ∃ c ds, formatLoop (room + 1) u a = (c :: ds) ++ a ∧
        c ≠ '-' ∧ c ≠ '+' ∧ (c :: ds).all Char.isDigit = true ∧
        ∀ n, (c :: ds).foldl (fun n ch => n * 10 + (ch.toNat - 48)) n
          = n * 10 ^ (c :: ds).length + u := by
  induction room with
  | zero =>
    intro u a hu
    have h10 : u < 10 := by simpa using hu
    have h1 : ¬ u ≥ 10 := by omega
    obtain ⟨-, hd, hv, hm, hp⟩ := digitByte_spec u h10
    refine ⟨digitByte u, [], by simp [formatLoop, h1], hm, hp, by simp [hd], ?_⟩
    intro n
    simp [hv]
  | succ room ih =>
    intro u a hu
    by_cases h1 : u ≥ 10
    · have h4 : u / 10 < 10 ^ (room + 1) := by
        rw [Nat.div_lt_iff_lt_mul (by decide)]
        calc u < 10 ^ (room + 1 + 1) := hu
          _ = 10 ^ (room + 1) * 10 := by rw [pow_succ]
      have h3 : u - u / 10 * 10 < 10 := by omega
      obtain ⟨-, hd, hv, -, -⟩ := digitByte_spec _ h3
      obtain ⟨c, ds, he, hm, hp, hall, hval⟩ :=
        ih (u / 10) (digitByte (u - u / 10 * 10) :: a) h4
      refine ⟨c, ds ++ [digitByte (u - u / 10 * 10)], ?_, hm, hp, ?_, ?_⟩
      · rw [formatLoop, if_pos h1, he]; simp
      · rw [← List.cons_append, List.all_append, hall]; simp [hd]
      · intro n
        rw [← List.cons_append, List.foldl_append, hval n]
        simp only [List.foldl_cons, List.foldl_nil, hv, List.length_append, List.length_cons,
          List.length_nil]
        have hu2 : u / 10 * 10 + (u - u / 10 * 10) = u := by omega
        calc (n * 10 ^ (ds.length + 1) + u / 10) * 10 + (u - u / 10 * 10)
            = n * 10 ^ (ds.length + 1 + 1) + (u / 10 * 10 + (u - u / 10 * 10)) := by ring
          _ = n * 10 ^ (ds.length + 1 + 1) + u := by rw [hu2]
    · have h10 : u < 10 := by omega
      obtain ⟨-, hd, hv, hm, hp⟩ := digitByte_spec u h10
      refine ⟨digitByte u, [], by simp [formatLoop, h1], hm, hp, by simp [hd], ?_⟩
      intro n
      simp [hv]

/-! ## The batch handler -/

/-- C1: when every record of the batch decodes, the loop of `Handler` ends with
a batch of exactly as many items as there are records, and the item at each
index is the one built from the record at that index: type `add`, id the
decimal string of the record's id, fields the converted document of the
record's event. -/
theorem handler_batch_one_item_per_record (w : Collaborators) (kinesisEvent : KinesisEvent)
    (h : ∀ r ∈ kinesisEvent.Records, ∃ ev, w.Unmarshal r.Kinesis.Data = .ok ev) :
    ∃ batch, prepare w kinesisEvent.Records [] = .ok batch ∧
      batch.length = kinesisEvent.Records.length ∧
      ∀ i (hi : i < kinesisEvent.Records.length), ∃ ev,
        w.Unmarshal (kinesisEvent.Records.get ⟨i, hi⟩).Kinesis.Data = .ok ev ∧
        batch[i]? = some
          { Type_ := "add".toList
            Id := strconv.Itoa ev.Id
            Fields := ConvertToCloudSearchDocument ev } := by
  obtain ⟨items, h1, h2, h3⟩ := prepare_all_ok w kinesisEvent.Records [] h
  exact ⟨items, by simpa using h1, h2, h3⟩

theorem sample_records_decode :
    ∀ r ∈ [sampleRecord [1], sampleRecord [2]],
      ∃ ev, sampleCollaborators.Unmarshal r.Kinesis.Data = .ok ev := by
  intro r hr
  simp only [List.mem_cons, List.mem_singleton, List.not_mem_nil, or_false] at hr
  rcases hr with rfl | rfl
  · exact ⟨_, rfl⟩
  · exact ⟨_, rfl⟩

theorem handler_batch_one_item_per_record_witness :
    ∃ batch, prepare sampleCollaborators [sampleRecord [1], sampleRecord [2]] [] = .ok batch ∧
      batch.length = 2 ∧
      ∀ i (hi : i < 2), ∃ ev,
        sampleCollaborators.Unmarshal
          ([sampleRecord [1], sampleRecord [2]].get ⟨i, hi⟩).Kinesis.Data = .ok ev ∧
        batch[i]? = some
          { Type_ := "add".toList
            Id := strconv.Itoa ev.Id
            Fields := ConvertToCloudSearchDocument ev } :=
  handler_batch_one_item_per_record sampleCollaborators
    { Records := [sampleRecord [1], sampleRecord [2]] } sample_records_decode

/-- C2: when the record at some position fails to decode and every record
before it decodes, `Handler` makes no upload call and returns `{ok:false}`
together with the decoding error of that record. -/
theorem handler_decode_failure_aborts (w : Collaborators)
    (pre post : List KinesisEventRecord) (bad : KinesisEventRecord) (e : GoError)
    (hpre : ∀ r ∈ pre, ∃ ev, w.Unmarshal r.Kinesis.Data = .ok ev)
    (hbad : w.Unmarshal bad.Kinesis.Data = .error e) :
    Handler w { Records := pre ++ bad :: post } =
      { response := { Ok := false }, err := some e, calls := [] } := by
  simp only [Handler, prepare_first_error w pre post bad e [] hpre hbad]
  rfl

theorem handler_decode_failure_aborts_witness :
    Handler sampleCollaborators
        { Records := [sampleRecord [1], sampleRecord [2]] ++
            sampleRecord [9] :: [sampleRecord [1]] } =
      { response := { Ok := false }, err := some "invalid character", calls := [] } :=
  handler_decode_failure_aborts sampleCollaborators [sampleRecord [1], sampleRecord [2]]
    [sampleRecord [1]] (sampleRecord [9]) "invalid character" sample_records_decode rfl

/-- C3: on the empty batch `Handler` makes no upload call and returns
`{ok:true}` with no error. -/
theorem handler_empty_batch (w : Collaborators) :
    Handler w { Records := [] } =
      { response := { Ok := true }, err := none, calls := [] } := by
  simp [Handler, prepare, success]

/-- C4: on a non-empty batch whose records all decode, with the batch encoded
as `body`, `Handler` makes exactly one upload call, carrying `body` as
`application/json` to the configured region and endpoint with six retries; it
returns `{ok:false}` with the error of that call when the call fails, and
`{ok:true}` with no error otherwise. -/
theorem handler_single_upload (w : Collaborators) (kinesisEvent : KinesisEvent)
    (hne : kinesisEvent.Records ≠ [])
    (h : ∀ r ∈ kinesisEvent.Records, ∃ ev, w.Unmarshal r.Kinesis.Data = .ok ev) :
    ∃ batch, prepare w kinesisEvent.Records [] = .ok batch ∧
      batch.length = kinesisEvent.Records.length ∧
      ∀ body, w.Marshal batch = .ok body →
        ∃ req : UploadCall,
          req =
            { config :=
                { Region := w.Getenv "SearchRegion".toList
                  Endpoint := w.Getenv "SearchEndpoint".toList
                  MaxRetries := 6 }
              params := { ContentType := "application/json".toList, Documents := body } } ∧
          (Handler w kinesisEvent).calls = [req] ∧
          (∀ e, w.Send req = some e →
            Handler w kinesisEvent =
              { response := { Ok := false }, err := some e, calls := [req] }) ∧
          (w.Send req = none →
            Handler w kinesisEvent =
              { response := { Ok := true }, err := none, calls := [req] }) := by
  obtain ⟨items, h1, h2, -⟩ := prepare_all_ok w kinesisEvent.Records [] h
  rw [List.nil_append] at h1
  have hpos : items.length > 0 := by
    rw [h2]; exact List.length_pos.2 hne
  refine ⟨items, h1, h2, ?_⟩
  intro body hbody
  refine ⟨_, rfl, ?_, ?_, ?_⟩
  · simp only [Handler, h1, hpos, if_true, hbody]
    split <;> rfl
  · intro e he
    simp only [Handler, h1, hpos, if_true, hbody, he]
    rfl
  · intro he
    simp only [Handler, h1, hpos, if_true, hbody, he]
    rfl

theorem handler_single_upload_witness :
    ∃ batch, prepare sampleCollaborators [sampleRecord [1], sampleRecord [2]] [] = .ok batch ∧
      batch.length = 2 ∧
      ∀ body, sampleCollaborators.Marshal batch = .ok body →
        ∃ req : UploadCall,
          req =
            { config :=
                { Region := "SearchRegion".toList
                  Endpoint := "SearchEndpoint".toList
                  MaxRetries := 6 }
              params := { ContentType := "application/json".toList, Documents := body } } ∧
          (Handler sampleCollaborators
            { Records := [sampleRecord [1], sampleRecord [2]] }).calls = [req] ∧
          (∀ e, sampleCollaborators.Send req = some e →
            Handler sampleCollaborators { Records := [sampleRecord [1], sampleRecord [2]] } =
              { response := { Ok := false }, err := some e, calls := [req] }) ∧
          (sampleCollaborators.Send req = none →
            Handler sampleCollaborators { Records := [sampleRecord [1], sampleRecord [2]] } =
              { response := { Ok := true }, err := none, calls := [req] }) :=
  handler_single_upload sampleCollaborators { Records := [sampleRecord [1], sampleRecord [2]] }
    (by simp) sample_records_decode

/-- When the encoding of the batch fails, `Handler` makes no upload call and
returns `{ok:false}` with the encoder's error (lines 72 to 74). -/
theorem handler_marshal_failure (w : Collaborators) (kinesisEvent : KinesisEvent)
    (batch : List AmazonDocumentUploadRequest) (e : GoError)
    (hb : prepare w kinesisEvent.Records [] = .ok batch) (hne : batch ≠ [])
    (hm : w.Marshal batch = .error e) :
    Handler w kinesisEvent = { response := { Ok := false }, err := some e, calls := [] } := by
  have hpos : batch.length > 0 := List.length_pos.2 hne
  simp only [Handler, hb, hpos, if_true, hm]
  rfl

/-! ## The record-to-document transformation -/

/-- C7: the directory and file name produced for a path are those produced for
the path with every back-slash replaced by a forward slash; this holds for
every path, in particular for those containing back-slashes. -/
theorem convert_split_normalised (data : KinesisEventData) :
    (ConvertToCloudSearchDocument data).Directory =
        (ConvertToCloudSearchDocument { data with FilePath := normalise data.FilePath }).Directory ∧
      (ConvertToCloudSearchDocument data).FileName =
        (ConvertToCloudSearchDocument { data with FilePath := normalise data.FilePath }).FileName := by
  simp only [ConvertToCloudSearchDocument, replace_eq_normalise, normalise_idem, and_self]

/-- C9: the event with path `a\b\report.pdf` and id 42 is converted to the
document `a/b/`, `report.pdf`, `pdf`, which is wrapped as the item of type
`add` with id `42`. -/
theorem scenario_report_pdf :
    ConvertToCloudSearchDocument { FilePath := "a\\b\\report.pdf".toList, Id := 42 } =
        { Directory := "a/b/".toList
          FileName := "report.pdf".toList
          FileExtension := "pdf".toList } ∧
      CreateAmazonDocumentUploadRequest 42
          (ConvertToCloudSearchDocument { FilePath := "a\\b\\report.pdf".toList, Id := 42 }) =
        { Type_ := "add".toList
          Id := "42".toList
          Fields :=
            { Directory := "a/b/".toList
              FileName := "report.pdf".toList
              FileExtension := "pdf".toList } } := by
  decide

/-- C10: the produced directory and file name split the normalised path at its
last forward slash: together they give the path with every back-slash
replaced by a forward slash, the file name holds neither a slash nor a
back-slash, and the directory is empty or ends with a slash. -/
theorem convert_splits_normalised_path (data : KinesisEventData) :
    (ConvertToCloudSearchDocument data).Directory ++ (ConvertToCloudSearchDocument data).FileName =
        normalise data.FilePath ∧
      '/' ∉ (ConvertToCloudSearchDocument data).FileName ∧
      '\\' ∉ (ConvertToCloudSearchDocument data).FileName ∧
      ((ConvertToCloudSearchDocument data).Directory = [] ∨
        (ConvertToCloudSearchDocument data).Directory.getLast? = some '/') := by
  have happ := splitLoop_append (normalise data.FilePath).reverse []
  simp only [List.reverse_reverse, List.append_nil] at happ
  simp only [ConvertToCloudSearchDocument, replace_eq_normalise, filepath.Split]
  refine ⟨happ, splitLoop_snd_no_sep _ _ (List.not_mem_nil _), ?_, splitLoop_fst_shape _ _⟩
  intro hmem
  apply normalise_no_backslash data.FilePath
  rw [← happ]
  exact List.mem_append_right _ hmem

/-! ## The document id -/

theorem itoa_eq (id : Int) (hlo : -(2 ^ 63) ≤ id) (hhi : id < 2 ^ 63) :
    strconv.Itoa id =
      if id < 0 then '-' :: formatLoop 65 id.natAbs [] else formatLoop 65 id.natAbs [] := by
  unfold strconv.Itoa strconv.FormatInt formatBits
  by_cases h : id < 0
  · have h1 : (2 ^ 64 - (id % 2 ^ 64).toNat) % 2 ^ 64 = id.natAbs := by omega
    simp only [h, decide_True, if_true, h1]
  · have h1 : (id % 2 ^ 64).toNat = id.natAbs := by omega
    simp only [h, decide_False, if_false, h1, Bool.false_eq_true]

theorem toString_int_toList (id : Int) :
    (toString id).toList =
      if id < 0 then '-' :: Nat.toDigits 10 id.natAbs else Nat.toDigits 10 id.natAbs := by
  cases id with
  | ofNat m =>
    have h : ¬ Int.ofNat m < 0 := by simp
    rw [if_neg h]; rfl
  | negSucc m =>
    have h : Int.negSucc m < 0 := Int.negSucc_lt_zero m
    rw [if_pos h]; rfl

theorem atoi_of_digits (neg : Bool) (c : Char) (ds : List Char) (u : Nat)
    (hm : c ≠ '-') (hp : c ≠ '+') (hall : (c :: ds).all Char.isDigit = true)
    (hval : (c :: ds).foldl (fun n ch => n * 10 + (ch.toNat - 48)) 0 = u)
    (hr : if neg then u ≤ 2 ^ 63 else u < 2 ^ 63) :
    strconv.Atoi (if neg then '-' :: c :: ds else c :: ds) =
      some (if neg then -(u : Int) else (u : Int)) := by
  cases neg with
  | true =>
    simp only [if_true] at hr ⊢
    have h1 : -(2 ^ 63 : Int) ≤ -(u : Int) ∧ -(u : Int) < 2 ^ 63 := by omega
    simp only [strconv.Atoi, List.head?_cons, true_or, if_true, List.drop_succ_cons,
      List.drop_zero, hall, hval, h1, and_self]
    simp
  | false =>
    simp only [Bool.false_eq_true, if_false] at hr ⊢
    have h1 : -(2 ^ 63 : Int) ≤ (u : Int) ∧ (u : Int) < 2 ^ 63 := by omega
    simp only [strconv.Atoi, List.head?_cons, Option.some.injEq, hm, hp, or_self, if_false,
      hall, hval, h1, and_self]
    simp

/-- C8: for every id in the range of the 64-bit `int`, zero and the negative
values included, the document id produced by
`CreateAmazonDocumentUploadRequest` is the decimal form of the id and parses
back to the same integer. -/
theorem document_id_round_trip (id : Int) (document : CloudSearchDocument)
    (hlo : -(2 ^ 63) ≤ id) (hhi : id < 2 ^ 63) :
    (CreateAmazonDocumentUploadRequest id document).Id = (toString id).toList ∧
      strconv.Atoi (CreateAmazonDocumentUploadRequest id document).Id = some id := by
  have hu : id.natAbs < 10 ^ (64 + 1) := by
    have : id.natAbs ≤ 2 ^ 63 := by omega
    exact lt_of_le_of_lt this (by norm_num)
  have hI := itoa_eq id hlo hhi
  constructor
  · show strconv.Itoa id = _
    rw [hI, toString_int_toList, Nat.toDigits,
      formatLoop_eq_toDigitsCore 64 (id.natAbs + 1) id.natAbs [] hu (Nat.lt_succ_self _)]
  · show strconv.Atoi (strconv.Itoa id) = _
    obtain ⟨c, ds, he, hm, hp, hall, hval⟩ := formatLoop_digits 64 id.natAbs [] hu
    rw [List.append_nil] at he
    have hv := hval 0
    rw [Nat.zero_mul, Nat.zero_add] at hv
    rw [hI, he]
    by_cases h : id < 0
    · have hr : (if true then id.natAbs ≤ 2 ^ 63 else id.natAbs < 2 ^ 63) := by
        simp only [if_true]; omega
      have := atoi_of_digits true c ds id.natAbs hm hp hall hv hr
      simp only [if_true] at this
      rw [if_pos h, this]
      congr 1; omega
    · have hr : (if false then id.natAbs ≤ 2 ^ 63 else id.natAbs < 2 ^ 63) := by
        simp only [Bool.false_eq_true, if_false]; omega
      have := atoi_of_digits false c ds id.natAbs hm hp hall hv hr
      simp only [Bool.false_eq_true, if_false] at this
      rw [if_neg h, this]
      congr 1; omega

theorem document_id_round_trip_witness :
    (CreateAmazonDocumentUploadRequest (-9223372036854775808) ⟨[], [], []⟩).Id =
        (toString (-9223372036854775808 : Int)).toList ∧
      strconv.Atoi (CreateAmazonDocumentUploadRequest (-9223372036854775808) ⟨[], [], []⟩).Id =
        some (-9223372036854775808) :=
  document_id_round_trip (-9223372036854775808) ⟨[], [], []⟩ (by decide) (by decide)

/-! ## The extension and the file name -/

theorem splitLoop_snd_suffix (before after : List Char) :
    ∃ g, (splitLoop before after).2 = g ++ after := by
  induction before generalizing after with
  | nil => exact ⟨[], rfl⟩
  | cons c before ih =>
    unfold splitLoop
    split
    · exact ⟨[], rfl⟩
    · obtain ⟨g, hg⟩ := ih (c :: after)
      exact ⟨g ++ [c], by rw [hg]; simp⟩

theorem afterLastDot_no_dot (s : GoString) (h : '.' ∉ s) : afterLastDot s = [] := by
  simp [afterLastDot, h]

theorem afterLastDot_append_dot (g after : List Char) (h : '.' ∉ after) :
    afterLastDot (g ++ '.' :: after) = after := by
  have hmem : '.' ∈ g ++ '.' :: after := by simp
  have hall : ∀ a ∈ after.reverse, (decide (a ≠ '.')) = true := by
    intro a ha
    have : a ≠ '.' := fun e => h (e ▸ List.mem_reverse.1 ha)
    simpa using this
  unfold afterLastDot
  rw [if_pos hmem, List.reverse_append, List.reverse_cons, List.append_assoc,
    List.takeWhile_append_of_pos hall]
  simp

theorem ext_eq_afterLastDot_loop (before after : List Char) (h : '.' ∉ after) :
    (if extLoop before after ≠ [] then (extLoop before after).drop 1 else []) =
      afterLastDot (splitLoop before after).2 := by
  induction before generalizing after with
  | nil => simp [extLoop, splitLoop, afterLastDot_no_dot _ h]
  | cons c before ih =>
    by_cases hs : IsPathSeparator c = true
    · simp [extLoop, splitLoop, hs, afterLastDot_no_dot _ h]
    · by_cases hd : c = '.'
      · subst hd
        obtain ⟨g, hg⟩ := splitLoop_snd_suffix before ('.' :: after)
        have he : extLoop ('.' :: before) after = '.' :: after := by
          simp [extLoop, IsPathSeparator]
        have hsp : splitLoop ('.' :: before) after = splitLoop before ('.' :: after) := by
          simp [splitLoop, IsPathSeparator]
        rw [he, hsp, hg, afterLastDot_append_dot g after h]
        simp
      · have h2 : '.' ∉ c :: after := by
          intro hm
          rcases List.mem_cons.1 hm with h3 | h3
          · exact hd h3.symm
          · exact h h3
        simp only [extLoop, splitLoop, hs, hd, if_false]
        exact ih (c :: after) h2

theorem normalise_of_no_backslash (p : GoString) (h : '\\' ∉ p) : normalise p = p := by
  induction p with
  | nil => rfl
  | cons c p ih =>
    have hc : c ≠ '\\' := fun e => h (by simp [e])
    have hp : '\\' ∉ p := fun e => h (List.mem_cons_of_mem _ e)
    simp [normalise, hc] at ih ⊢
    exact ih hp

/-- On a path without back-slashes the produced extension is the text after
the last `'.'` of the produced file name, and is empty when the file name has
no `'.'`. -/
theorem extension_of_slash_path (data : KinesisEventData) (h : '\\' ∉ data.FilePath) :
    (ConvertToCloudSearchDocument data).FileExtension =
      afterLastDot (ConvertToCloudSearchDocument data).FileName := by
  simp only [ConvertToCloudSearchDocument, replace_eq_normalise,
    normalise_of_no_backslash _ h, filepath.Ext, filepath.Split]
  exact ext_eq_afterLastDot_loop _ _ (List.not_mem_nil _)

/-- On a path without back-slashes the extension of the reconstructed path
`directory ++ fileName` is the extension of the path. -/
theorem extension_idempotent_slash_path (data : KinesisEventData) (h : '\\' ∉ data.FilePath) :
    (ConvertToCloudSearchDocument
        { data with
          FilePath := (ConvertToCloudSearchDocument data).Directory ++
            (ConvertToCloudSearchDocument data).FileName }).FileExtension =
      (ConvertToCloudSearchDocument data).FileExtension := by
  have happ := splitLoop_append (normalise data.FilePath).reverse []
  simp only [List.reverse_reverse, List.append_nil] at happ
  have hrec : (ConvertToCloudSearchDocument data).Directory ++
      (ConvertToCloudSearchDocument data).FileName = data.FilePath := by
    simp only [ConvertToCloudSearchDocument, replace_eq_normalise, filepath.Split]
    rw [happ, normalise_of_no_backslash _ h]
  rw [hrec]

/-- C5, at the path `a.b\c`: the produced extension is `b\c`, while the
extension produced for the reconstructed path `a.b/c` is empty. -/
theorem extension_not_idempotent_at_backslash_path :
    (ConvertToCloudSearchDocument { FilePath := "a.b\\c".toList, Id := 1 }).FileExtension =
        "b\\c".toList ∧
      (ConvertToCloudSearchDocument { FilePath := "a.b\\c".toList, Id := 1 }).Directory ++
          (ConvertToCloudSearchDocument { FilePath := "a.b\\c".toList, Id := 1 }).FileName =
        "a.b/c".toList ∧
      (ConvertToCloudSearchDocument
          { FilePath :=
              (ConvertToCloudSearchDocument { FilePath := "a.b\\c".toList, Id := 1 }).Directory ++
              (ConvertToCloudSearchDocument { FilePath := "a.b\\c".toList, Id := 1 }).FileName
            Id := 1 }).FileExtension = [] := by
  decide

/-- C6, at the path `docs.old\readme`: the produced file name is `readme`,
which has no `'.'`, yet the produced extension is `old\readme` and not the
empty string. -/
theorem extension_spans_backslash_segments :
    (ConvertToCloudSearchDocument
        { FilePath := "docs.old\\readme".toList, Id := 7 }).FileName = "readme".toList ∧
      afterLastDot "readme".toList = [] ∧
      (ConvertToCloudSearchDocument
        { FilePath := "docs.old\\readme".toList, Id := 7 }).FileExtension =
          "old\\readme".toList := by
  decide

theorem extension_of_slash_path_sample :
    (ConvertToCloudSearchDocument { FilePath := "a/b.c/report.v2.pdf".toList, Id := 3 }).FileExtension =
      afterLastDot
        (ConvertToCloudSearchDocument { FilePath := "a/b.c/report.v2.pdf".toList, Id := 3 }).FileName :=
  extension_of_slash_path _ (by decide)

end KinesisCloudSearch
